import Mathlib

/-!
# Verification of scaffolder action helpers

A shallow embedding, in Lean 4, of the two helper modules of this repository:

* `parseRepoUrl` / `getOctokitOptions`: repository-URL parsing and Octokit
  option derivation (`packages/backend/src/plugins/scaffolder/actions/helpers.ts`).
* `serializeDirectoryContents` / `isExecutable`: directory-tree serialization
  with symlink handling and bounded-concurrency reads (same file).

TypeScript runtime values are embedded as follows: `string | undefined` and
nullable strings become `Option String`; byte buffers become `List Nat`;
thrown `InputError`s become `Except InputError`; the filesystem, the
integrations registry, and the credentials provider are injected as explicit
function-valued parameters, mirroring how the source consumes them as
external collaborators.
-/

namespace Scaffolder

/-- The error thrown by the URL-parsing helpers (`InputError` from
`@backstage/errors`), carrying its message. -/
structure InputError where
  message : String
deriving DecidableEq, Repr

/-- Splits a character list at the first occurrence of `c`; returns the prefix
and, when `c` occurs, the remainder after it. -/
def splitFirst (c : Char) : List Char → List Char × Option (List Char)
  | [] => ([], none)
  | x :: xs =>
    if x = c then ([], some xs)
    else
      let (pre, post) := splitFirst c xs
      (x :: pre, post)

/-- Splits a character list on every occurrence of `c`. -/
def splitAll (c : Char) : List Char → List (List Char)
  | [] => [[]]
  | x :: xs =>
    let rest := splitAll c xs
    if x = c then [] :: rest
    else
      match rest with
      | [] => [[x]]
      | r :: rs => (x :: r) :: rs

/-- The parsed form of `https://{repoUrl}` that `parseRepoUrl` reads:
the `host` and the query parameters in order of appearance. -/
structure URLModel where
  host : String
  params : List (String × String)
deriving DecidableEq, Repr

/-- `searchParams.get(key)`: the value of the first query parameter named
`key`, or `none` when absent (`null` in JS). -/
def URLModel.getParam (u : URLModel) (key : String) : Option String :=
  (u.params.find? (fun p => p.1 = key)).map Prod.snd

/-- One `key=value` query segment (no `=` means an empty value, as in
`URLSearchParams`). -/
def parseQuerySegment (cs : List Char) : String × String :=
  let (k, v) := splitFirst '=' cs
  (String.mk k, String.mk (v.getD []))

/-- Modelled from the spec: the platform URL constructor applied to
`https://{repoUrl}` (step 1 of the RepoUrlParser algorithm), which is an
external primitive not part of this repository.  The model covers the
host-plus-query shape the helpers are fed: everything before the first `/` or
`?` is the host (lower-cased, as the URL constructor does), the part after
`?` is the query string, split on `&` into `key=value` segments.  An empty
host is a parse failure (the constructor throws `Invalid URL`). -/
def parseUrlModel (repoUrl : String) : Option URLModel :=
  let cs := repoUrl.toList
  let (beforeQ, afterQ) := splitFirst '?' cs
  let (hostChars, _) := splitFirst '/' beforeQ
  if hostChars.isEmpty then none
  else
    let segments := (splitAll '&' (afterQ.getD [])).filter (fun s => ¬ s.isEmpty)
    some { host := String.mk (hostChars.map Char.toLower)
           params := segments.map parseQuerySegment }

/-- JS truthiness of a `string | null | undefined` value: `null`, `undefined`
and the empty string are falsy. -/
def truthy : Option String → Bool
  | none => false
  | some s => if s = "" then false else true

/-- `repoUrl.searchParams.get(p)` is truthy: the parameter is present with a
non-empty value. -/
def paramPresent (u : URLModel) (p : String) : Bool :=
  truthy (u.getParam p)

/-- The descriptor returned by `parseRepoUrl`.  The TypeScript `RepoSpec`
declares `repo: string` (required), but the implementation populates it with
`parsed.searchParams.get('repo')!` — an unchecked non-null assertion — so at
runtime the field can hold `null`; the embedding records that runtime truth
with an `Option`. -/
structure RepoSpec where
  repo : Option String
  host : String
  owner : Option String
  organization : Option String
  workspace : Option String
  project : Option String
deriving DecidableEq, Repr

/-- The part of the `ScmIntegrationRegistry` consumed by these helpers:
`integrations.byHost(host)?.type` and
`integrations.github.byHost(host)?.config`. -/
structure GithubIntegrationConfig where
  apiBaseUrl : Option String
deriving DecidableEq, Repr

structure IntegrationsModel where
  byHost : String → Option String
  githubByHost : String → Option GithubIntegrationConfig

/-- `checkRequiredParams(repoUrl, ...params)`: throws `InputError` at the
first listed query parameter whose value is falsy. -/
def checkRequiredParams (u : URLModel) : List String → Except InputError Unit
  | [] => .ok ()
  | p :: rest =>
    if paramPresent u p then checkRequiredParams u rest
    else .error ⟨"Invalid repo URL passed to publisher, missing " ++ p⟩

/-- Sequencing of two void checks: the second runs only when the first
succeeds. -/
def seqCheck (a b : Except InputError Unit) : Except InputError Unit :=
  match a with
  | .error e => .error e
  | .ok () => b

/-- A check followed by a pure return: the value is produced only when the
check succeeds. -/
def andThenOk (c : Except InputError Unit) (v : RepoSpec) :
    Except InputError RepoSpec :=
  match c with
  | .error e => .error e
  | .ok () => .ok v

/-- `parseRepoUrl(repoUrl, integrations)`: parse `https://{repoUrl}`, resolve
the provider type for the host, enforce the provider-specific required
parameters (the `switch` on the provider type), and return the populated
descriptor. -/
def parseRepoUrl (repoUrl : String) (integrations : IntegrationsModel) :
    Except InputError RepoSpec :=
  match parseUrlModel repoUrl with
  | none => .error ⟨"Invalid repo URL passed to publisher, got " ++ repoUrl⟩
  | some parsed =>
    let host := parsed.host
    let owner := parsed.getParam "owner"
    let organization := parsed.getParam "organization"
    let workspace := parsed.getParam "workspace"
    let project := parsed.getParam "project"
    match integrations.byHost host with
    | none =>
      .error ⟨"No matching integration configuration for host " ++ host⟩
    | some type =>
      let repo := parsed.getParam "repo"
      andThenOk
        (if type = "bitbucket" then
          seqCheck
            (if host = "www.bitbucket.org" then
              checkRequiredParams parsed ["workspace"]
            else .ok ())
            (checkRequiredParams parsed ["project", "repo"])
        else if type = "gitlab" then
          -- project is the projectID, and if defined, owner and repo won't be needed.
          if truthy project then .ok ()
          else checkRequiredParams parsed ["owner", "repo"]
        else if type = "gerrit" then
          checkRequiredParams parsed ["repo"]
        else
          checkRequiredParams parsed ["repo", "owner"])
        { repo, host, owner, organization, workspace, project }

/-- The list of mandatory query parameters the specification assigns to each
provider type, stated from the spec's words so the behavior of
`parseRepoUrl` can be compared against it: `bitbucket` needs `workspace` on
the public Bitbucket hostname plus `project` and `repo`; `gitlab` needs
`owner` and `repo` unless `project` is present; `gerrit` needs `repo`; every
other provider needs `repo` and `owner`. -/
def specMandatoryParams (type : String) (u : URLModel) : List String :=
  if type = "bitbucket" then
    (if u.host = "www.bitbucket.org" then ["workspace"] else [])
      ++ ["project", "repo"]
  else if type = "gitlab" then
    if paramPresent u "project" then [] else ["owner", "repo"]
  else if type = "gerrit" then ["repo"]
  else ["repo", "owner"]

/-! ## getOctokitOptions -/

/-- `DEFAULT_TIMEOUT_MS = 60_000`. -/
def DEFAULT_TIMEOUT_MS : Nat := 60000

/-- The `request` options attached on the token short-circuit path. -/
structure RequestOptions where
  timeout : Nat
deriving DecidableEq, Repr

/-- The `OctokitOptions` value built by `getOctokitOptions`; only the fields
the function sets are modelled.  `request` is `none` on the
credentials-provider path, which does not attach request options. -/
structure OctokitOptions where
  auth : String
  baseUrl : Option String
  previews : List String
  request : Option RequestOptions
deriving DecidableEq, Repr

/-- Modelled from the spec: the platform `encodeURIComponent`, an external
primitive.  Unreserved characters (ASCII letters, digits, `-_.!~*'()`) pass
through; every other character is percent-encoded byte-wise from its UTF-8
encoding. -/
def encodeURIComponentModel (s : String) : String :=
  let hexDigit (n : Nat) : Char :=
    if n < 10 then Char.ofNat (48 + n) else Char.ofNat (55 + n)
  let pct (b : Nat) : List Char := ['%', hexDigit (b / 16), hexDigit (b % 16)]
  let utf8Bytes (n : Nat) : List Nat :=
    if n < 128 then [n]
    else if n < 2048 then [192 + n / 64, 128 + n % 64]
    else if n < 65536 then [224 + n / 4096, 128 + n / 64 % 64, 128 + n % 64]
    else [240 + n / 262144, 128 + n / 4096 % 64, 128 + n / 64 % 64, 128 + n % 64]
  let keep (c : Char) : Bool :=
    c.isAlphanum ∨ c ∈ ['-', '_', '.', '!', '~', '*', '\'', '(', ')']
  String.mk (s.toList.flatMap fun c =>
    if keep c then [c] else (utf8Bytes c.toNat).flatMap pct)

/-- `getOctokitOptions({integrations, credentialsProvider, token, repoUrl})`.
The credentials provider — the caller-supplied one or the
`DefaultGithubCredentialsProvider` built from the integrations — is injected
as one lookup from the credentials URL to the token it yields (`none` when
`getCredentials` yields no token). -/
def getOctokitOptions (integrations : IntegrationsModel)
    (credentialsProvider : String → Option String)
    (token : Option String) (repoUrl : String) :
    Except InputError OctokitOptions :=
  match parseRepoUrl repoUrl integrations with
  | .error e => .error e
  | .ok spec =>
    -- set timeout to 60 seconds
    let requestOptions : RequestOptions := ⟨DEFAULT_TIMEOUT_MS⟩
    if ¬ truthy spec.owner then
      .error ⟨"No owner provided for repo " ++ repoUrl⟩
    else
      match integrations.githubByHost spec.host with
      | none => .error ⟨"No integration for host " ++ spec.host⟩
      | some integrationConfig =>
        -- short circuit the `githubCredentialsProvider` if there is a token
        -- provided by the caller already
        if truthy token then
          .ok { auth := token.getD ""
                baseUrl := integrationConfig.apiBaseUrl
                previews := ["nebula-preview"]
                request := some requestOptions }
        else
          let url := "https://" ++ spec.host ++ "/"
            ++ encodeURIComponentModel (spec.owner.getD "undefined") ++ "/"
            ++ encodeURIComponentModel (spec.repo.getD "null")
          let credentialProviderToken := credentialsProvider url
          if ¬ truthy credentialProviderToken then
            .error ⟨"No token available for host: " ++ spec.host⟩
          else
            .ok { auth := credentialProviderToken.getD ""
                  baseUrl := integrationConfig.apiBaseUrl
                  previews := ["nebula-preview"]
                  request := none }

/-! ## Directory serialization -/

/-- `isExecutable(fileMode)`: false on a falsy mode (`undefined` or `0`),
otherwise whether `fileMode & 0o111` is positive. -/
def isExecutable (fileMode : Option Nat) : Bool :=
  match fileMode with
  | none => false
  | some m =>
    if m = 0 then false
    else
      let executeBitMask := 0o111
      let res := Nat.land m executeBitMask
      res > 0

/-- The entry-type flags `globby` attaches to each walked entry
(`dirent.isDirectory()` / `dirent.isSymbolicLink()`). -/
structure Dirent where
  isDirectory : Bool
  isSymbolicLink : Bool
deriving DecidableEq, Repr, Inhabited

/-- One entry of the `globby` walk in object mode with stats: its
root-relative path, its dirent flags, and `stats?.mode`. -/
structure GlobEntry where
  path : String
  dirent : Dirent
  mode : Option Nat
deriving DecidableEq, Repr, Inhabited

/-- Outcome of `fs.stat`: success, or a thrown value with whether it is an
`Error` (`isError`) and its `code`. -/
inductive StatOutcome where
  | ok
  | err (isError : Bool) (code : String)
deriving DecidableEq, Repr

/-- Errors that abort `serializeDirectoryContents`: a
`resolveSafeChildPath` rejection (the resolved path would escape the source
root) or an I/O failure from a content read. -/
inductive SerError where
  | pathSafety
  | ioFailure (code : String)
deriving DecidableEq, Repr

/-- The filesystem collaborators of `serializeDirectoryContents`, injected
relative to the fixed `sourcePath`:
`resolve` is `resolveSafeChildPath(sourcePath, path)` (by its contract it
yields the absolute path when `path` stays within the root and throws —
`none` — otherwise); `stat`, `readFile` and `readlink` act on the resolved
absolute path. -/
structure FSModel where
  resolve : String → Option String
  stat : String → StatOutcome
  readFile : String → Except SerError (List Nat)
  readlink : String → Except SerError (List Nat)

/-- A serialized file record: relative path, content bytes, and the
executable / symlink flags. -/
structure SerializedFile where
  path : String
  content : List Nat
  executable : Bool
  symlink : Bool
deriving DecidableEq, Repr

/-- `Promise.all(array.map(f))` over fallible per-element computations: the
list of results, or the error of a failing element. -/
def exceptMapList (f : α → Except ε β) : List α → Except ε (List β)
  | [] => .ok []
  | a :: as =>
    match f a with
    | .error e => .error e
    | .ok b =>
      match exceptMapList f as with
      | .error e => .error e
      | .ok bs => .ok (b :: bs)

/-- `array.filter((_, i) => flags[i])`: keep the elements whose flag is
true. -/
def applyFilterFlags : List α → List Bool → List α
  | a :: as, b :: bs =>
    if b then a :: applyFilterFlags as bs else applyFilterFlags as bs
  | _, _ => []

/-- `asyncFilter(array, callback)`: evaluate the fallible predicate on every
element (`Promise.all` of the mapped callbacks), then filter by the resulting
flags. -/
def asyncFilter (f : α → Except ε Bool) (l : List α) : Except ε (List α) :=
  match exceptMapList f l with
  | .error e => .error e
  | .ok flags => .ok (applyFilterFlags l flags)

/-- The filter callback of `serializeDirectoryContents`: drop directories,
keep non-symlinks, and keep a symlink only when `fs.stat` on its safely
resolved path throws an `Error` with code `ENOENT` (we only want files that
don't exist); any other stat outcome drops it.  `resolveSafeChildPath`
throwing propagates. -/
def keepEntry (fs : FSModel) (e : GlobEntry) : Except SerError Bool :=
  if e.dirent.isDirectory then .ok false
  else if ¬ e.dirent.isSymbolicLink then .ok true
  else
    match fs.resolve e.path with
    | none => .error .pathSafety
    | some safePath =>
      match fs.stat safePath with
      | .ok => .ok false
      | .err isError code => .ok (isError && (code == "ENOENT"))

/-- The materialization of one retained entry: resolve the safe absolute
path, read the raw link target for a symlink or the file content otherwise,
and attach the `executable` and `symlink` flags. -/
def serializeEntry (fs : FSModel) (e : GlobEntry) :
    Except SerError SerializedFile :=
  match fs.resolve e.path with
  | none => .error .pathSafety
  | some absFilePath =>
    match
      (if e.dirent.isSymbolicLink then fs.readlink absFilePath
       else fs.readFile absFilePath) with
    | .error err => .error err
    | .ok content =>
      .ok { path := e.path
            content
            executable := isExecutable e.mode
            symlink := e.dirent.isSymbolicLink }

/-- The concurrency ceiling of the materialization phase:
`limiterFactory(10)`. -/
def readConcurrencyLimit : Nat := 10

/-- `serializeDirectoryContents(sourcePath, options)`, with the `globby`
walk abstracted into its result `entries` (the walk is an external
collaborator; the entries carry the dirent flags and stats it attaches).
Filter the entries with `keepEntry`, then materialize each retained entry.
The read concurrency limiter bounds in-flight reads but does not change the
produced value; its admission discipline is modelled separately by
`LimiterStep`. -/
def serializeDirectoryContents (fs : FSModel) (entries : List GlobEntry) :
    Except SerError (List SerializedFile) :=
  match asyncFilter (keepEntry fs) entries with
  | .error e => .error e
  | .ok valid => exceptMapList (serializeEntry fs) valid

/-! ## Concurrency models

Two aspects of the materialization phase are erased by the sequential
`serializeDirectoryContents` above and modelled explicitly here: the
admission discipline of the `p-limit` read limiter, and the independence of
the produced records from the order in which the concurrently scheduled
reads complete. -/

/-- Modelled from the spec: the state of the bounded-concurrency read
limiter (`p-limit`, an external primitive): how many reads are in flight,
queued, and completed. -/
structure LimiterState where
  active : Nat
  pending : Nat
  completed : Nat
deriving DecidableEq, Repr

/-- Modelled from the spec: the admission discipline of the read limiter
with capacity `cap` — a queued read starts only while fewer than `cap` reads
are in flight, and an in-flight read may finish at any time.  First-admitted
order is not constrained. -/
inductive LimiterStep (cap : Nat) : LimiterState → LimiterState → Prop
  | start (s : LimiterState) (hp : 0 < s.pending) (hc : s.active < cap) :
      LimiterStep cap s ⟨s.active + 1, s.pending - 1, s.completed⟩
  | finish (s : LimiterState) (ha : 0 < s.active) :
      LimiterStep cap s ⟨s.active - 1, s.pending, s.completed + 1⟩

/-- The limiter state at the start of a materialization pass over `n`
retained entries: no read in flight, all `n` reads queued. -/
def limiterInit (n : Nat) : LimiterState := ⟨0, n, 0⟩

/-- The limiter states reachable during a materialization pass over `n`
entries under capacity `cap`. -/
inductive LimiterReachable (cap n : Nat) : LimiterState → Prop
  | init : LimiterReachable cap n (limiterInit n)
  | step {s t : LimiterState} : LimiterReachable cap n s →
      LimiterStep cap s t → LimiterReachable cap n t

/-- Executing pure tasks in a given completion order: each executed task
writes its own slot with its result. -/
def runSlots (f : Nat → α) : List Nat → (Nat → Option α) → Nat → Option α
  | [], slots => slots
  | i :: rest, slots =>
    runSlots f rest (fun j => if j = i then some (f i) else slots j)

/-- The materialization phase of `serializeDirectoryContents` run under an
explicit completion schedule `sched` (the order in which the concurrently
issued reads of the retained entries finish): slot `i` receives the record
serialized from the `i`-th retained entry, each computed only from the
filesystem and that entry. -/
def materializeScheduled (fs : FSModel) (valid : List GlobEntry)
    (sched : List Nat) : Nat → Option (Except SerError SerializedFile) :=
  runSlots (fun i => serializeEntry fs (valid.getD i default)) sched
    (fun _ => none)

/-! ## Concrete fixtures (used by witnesses and counterexamples) -/

/-- A registry resolving `github.com` to provider type `github`, with a
GitHub integration config carrying an API base URL. -/
def integrationsGithub : IntegrationsModel where
  byHost := fun h => if h = "github.com" then some "github" else none
  githubByHost := fun h =>
    if h = "github.com" then some ⟨some "https://api.github.com"⟩ else none

/-- A registry resolving `gitlab.com` to provider type `gitlab`. -/
def integrationsGitlab : IntegrationsModel where
  byHost := fun h => if h = "gitlab.com" then some "gitlab" else none
  githubByHost := fun _ => none

/-- A registry resolving `gerrit.example` to provider type `gerrit`. -/
def integrationsGerrit : IntegrationsModel where
  byHost := fun h => if h = "gerrit.example" then some "gerrit" else none
  githubByHost := fun _ => none

/-- A concrete tree under `/root`: `a.txt` is a readable regular file,
`broken` is a symlink whose target is gone (stat fails with `ENOENT`) and
whose raw target bytes are readable, and every other path stats fine. -/
def fsTree : FSModel where
  resolve := fun p => some ("/root/" ++ p)
  stat := fun p => if p = "/root/broken" then .err true "ENOENT" else .ok
  readFile := fun p =>
    if p = "/root/a.txt" then .ok [104, 105] else .error (.ioFailure "ENOENT")
  readlink := fun p =>
    if p = "/root/broken" then .ok [103] else .error (.ioFailure "EINVAL")

def entryFile : GlobEntry := ⟨"a.txt", ⟨false, false⟩, some 0o644⟩
def entryDir : GlobEntry := ⟨"dir", ⟨true, false⟩, some 0o755⟩
def entryBroken : GlobEntry := ⟨"broken", ⟨false, true⟩, some 0o777⟩
def entryLive : GlobEntry := ⟨"live", ⟨false, true⟩, some 0o777⟩

/-- A filesystem on which the relative path `../evil` fails safe-path
resolution while everything else succeeds. -/
def fsEscape : FSModel where
  resolve := fun p => if p = "../evil" then none else some ("/root/" ++ p)
  stat := fun _ => .ok
  readFile := fun _ => .ok []
  readlink := fun _ => .ok []

def entryEscape : GlobEntry := ⟨"../evil", ⟨false, false⟩, none⟩

/-! ## Lemmas about the URL parser -/

theorem checkRequiredParams_ok_iff (u : URLModel) (ps : List String) :
    checkRequiredParams u ps = .ok () ↔ ∀ p ∈ ps, paramPresent u p = true := by
  induction ps with
  | nil => simp [checkRequiredParams]
  | cons p rest ih =>
    constructor
    · intro h q hq
      unfold checkRequiredParams at h
      by_cases hp : paramPresent u p = true
      · rw [if_pos hp] at h
        rcases List.mem_cons.mp hq with rfl | hq'
        · exact hp
        · exact (ih.mp h) q hq'
      · rw [if_neg hp] at h
        cases h
    · intro h
      unfold checkRequiredParams
      rw [if_pos (h p (List.mem_cons_self p rest))]
      exact ih.mpr fun q hq => h q (List.mem_cons_of_mem _ hq)

theorem seqCheck_ok_iff (a b : Except InputError Unit) :
    seqCheck a b = .ok () ↔ a = .ok () ∧ b = .ok () := by
  cases a with
  | error e => simp [seqCheck]
  | ok v => cases v; simp [seqCheck]

theorem andThenOk_isOk_iff (c : Except InputError Unit) (v : RepoSpec) :
    (andThenOk c v).isOk = true ↔ c = .ok () := by
  cases c with
  | error e => simp [andThenOk, Except.isOk, Except.toBool]
  | ok w => cases w; simp [andThenOk, Except.isOk, Except.toBool]

/-- C1: for every supported provider type, `parseRepoUrl` succeeds exactly
when all of that provider's mandatory query parameters are present (and
fails, with an `InputError`, when any is absent): `bitbucket` requires
`project` and `repo` plus `workspace` when the host is the public Bitbucket
hostname; `gitlab` requires `owner` and `repo` unless `project` is present;
`gerrit` requires `repo`; any other provider requires `repo` and `owner`. -/
theorem parseRepoUrl_mandatory_params (repoUrl : String)
    (integrations : IntegrationsModel) (u : URLModel) (type : String)
    (hparse : parseUrlModel repoUrl = some u)
    (htype : integrations.byHost u.host = some type) :
    (parseRepoUrl repoUrl integrations).isOk = true ↔
      ∀ p ∈ specMandatoryParams type u, paramPresent u p = true := by
  simp only [parseRepoUrl, hparse, htype]
  rw [andThenOk_isOk_iff]
  by_cases hb : type = "bitbucket"
  · subst hb
    by_cases hw : u.host = "www.bitbucket.org"
    · simp [hw, specMandatoryParams, seqCheck_ok_iff, checkRequiredParams_ok_iff]
    · simp [hw, specMandatoryParams, seqCheck_ok_iff, checkRequiredParams_ok_iff]
  · by_cases hg : type = "gitlab"
    · subst hg
      by_cases hpj : truthy (u.getParam "project") = true
      · simp [hb, specMandatoryParams, paramPresent, hpj]
      · simp [hb, specMandatoryParams, paramPresent, hpj,
          checkRequiredParams_ok_iff]
    · by_cases hge : type = "gerrit"
      · subst hge
        simp [hb, hg, specMandatoryParams, checkRequiredParams_ok_iff]
      · simp [hb, hg, hge, specMandatoryParams, checkRequiredParams_ok_iff]

/-- Witness for C1: for provider type `gerrit`, a URL carrying the single
mandatory parameter `repo` parses successfully. -/
theorem parseRepoUrl_mandatory_params_witness :
    (parseRepoUrl "gerrit.example?repo=x" integrationsGerrit).isOk = true :=
  (parseRepoUrl_mandatory_params "gerrit.example?repo=x" integrationsGerrit
    ⟨"gerrit.example", [("repo", "x")]⟩ "gerrit" rfl rfl).mpr (by decide)

/-- C7: with a registry resolving `github.com` to a provider type other than
`bitbucket`, `gitlab` or `gerrit`, parsing `github.com?repo=x&owner=y`
succeeds with host `github.com`, repo `x` and owner `y`. -/
theorem parseRepoUrl_github_example :
    parseRepoUrl "github.com?repo=x&owner=y" integrationsGithub =
      .ok { repo := some "x", host := "github.com", owner := some "y",
            organization := none, workspace := none, project := none } := rfl

/-- C10: for provider type `gitlab` with `project` present and `repo`
absent, `parseRepoUrl` succeeds and the returned descriptor's `repo` field —
declared as a required `string` in the TypeScript `RepoSpec` — is actually
null (here `none`), because of the unchecked non-null assertion on the
`repo` query parameter. -/
theorem parseRepoUrl_gitlab_missing_repo :
    parseRepoUrl "gitlab.com?project=123" integrationsGitlab =
      .ok { repo := none, host := "gitlab.com", owner := none,
            organization := none, workspace := none, project := some "123" } := rfl

/-- C6: `isExecutable` is true exactly on a defined file mode having at
least one of the user/group/other execute bits (mask `0o111`) set; in
particular `isExecutable 0o644` is false, `isExecutable 0o755` is true and
`isExecutable undefined` is false. -/
theorem isExecutable_execute_bits :
    (∀ m : Option Nat,
      isExecutable m = true ↔ ∃ v, m = some v ∧ 0 < Nat.land v 0o111) ∧
    isExecutable (some 0o644) = false ∧ isExecutable (some 0o755) = true ∧
    isExecutable none = false := by
  refine ⟨fun m => ?_, by decide, by decide, rfl⟩
  cases m with
  | none => simp [isExecutable]
  | some v =>
    by_cases h0 : v = 0
    · subst h0
      simp [isExecutable]
      decide
    · simp [isExecutable, h0]

/-! ## Lemmas about the serializer -/

/-- C3: during the dangling-symlink existence check, a stat failure that is
an `Error` with code `ENOENT` keeps the symlink entry, while any other stat
error yields `false` (entry excluded) rather than propagating an error to
the caller. -/
theorem keepEntry_stat_error_policy (fs : FSModel) (e : GlobEntry) (a : String)
    (hdir : e.dirent.isDirectory = false)
    (hsym : e.dirent.isSymbolicLink = true)
    (hres : fs.resolve e.path = some a) :
    (fs.stat a = .err true "ENOENT" → keepEntry fs e = .ok true) ∧
    (∀ isE code, fs.stat a = .err isE code → ¬(isE = true ∧ code = "ENOENT") →
      keepEntry fs e = .ok false) := by
  constructor
  · intro hstat
    simp [keepEntry, hdir, hsym, hres, hstat]
  · intro isE code hstat hne
    simp only [keepEntry, hdir, hsym, hres, hstat]
    cases isE with
    | false => simp
    | true =>
      have hcode : code ≠ "ENOENT" := fun h => hne ⟨rfl, h⟩
      simp [hcode]

/-- Witness for C3: on the concrete tree, the `broken` symlink (whose stat
fails with `ENOENT`) is kept by the filter. -/
theorem keepEntry_stat_error_policy_witness :
    keepEntry fsTree entryBroken = .ok true :=
  (keepEntry_stat_error_policy fsTree entryBroken "/root/broken"
    rfl rfl rfl).1 rfl

/-- Counterexample to C4 as stated: a call that does supply a token but whose
repo URL lacks an `owner` does not return options at all — `getOctokitOptions`
fails with an `InputError` before reaching the token short-circuit. -/
theorem getOctokitOptions_token_without_owner_fails :
    (getOctokitOptions integrationsGithub (fun _ => none) (some "tok")
      "github.com?repo=x").isOk = false := rfl

/-- C4 (amended): whenever the caller supplies a non-empty token and the call
passes the checks that precede the token test (the repo URL parses, its owner
is truthy, and a GitHub integration config exists for the host), the function
returns options carrying that token as `auth` and the fixed 60-second request
timeout — and the result is the same for every credentials provider, i.e. the
provider is never consulted. -/
theorem getOctokitOptions_token_short_circuit
    (integrations : IntegrationsModel) (provider : String → Option String)
    (t repoUrl : String) (spec : RepoSpec) (cfg : GithubIntegrationConfig)
    (hparse : parseRepoUrl repoUrl integrations = .ok spec)
    (howner : truthy spec.owner = true)
    (hcfg : integrations.githubByHost spec.host = some cfg)
    (ht : t ≠ "") :
    getOctokitOptions integrations provider (some t) repoUrl =
      .ok ⟨t, cfg.apiBaseUrl, ["nebula-preview"], some ⟨DEFAULT_TIMEOUT_MS⟩⟩ := by
  have htok : truthy (some t) = true := by simp [truthy, ht]
  simp [getOctokitOptions, hparse, howner, hcfg, htok]

/-- Witness for C4 (amended): a concrete call with a token returns it as
`auth` with the 60-second timeout, for a provider that would have yielded a
different token. -/
theorem getOctokitOptions_token_short_circuit_witness :
    getOctokitOptions integrationsGithub (fun _ => some "other") (some "tok")
      "github.com?repo=x&owner=y" =
      .ok ⟨"tok", some "https://api.github.com", ["nebula-preview"],
        some ⟨DEFAULT_TIMEOUT_MS⟩⟩ :=
  getOctokitOptions_token_short_circuit integrationsGithub
    (fun _ => some "other") "tok" "github.com?repo=x&owner=y"
    ⟨some "x", "github.com", some "y", none, none, none⟩
    ⟨some "https://api.github.com"⟩ rfl rfl rfl (by decide)

/-- C9: in every limiter state reachable during a materialization pass —
whatever the number of queued reads — the number of in-flight reads never
exceeds the configured ceiling of 10. -/
theorem limiter_active_le_limit (n : Nat) (s : LimiterState)
    (h : LimiterReachable readConcurrencyLimit n s) :
    s.active ≤ readConcurrencyLimit := by
  induction h with
  | init => exact Nat.zero_le _
  | step _ hstep ih =>
    cases hstep with
    | start hp hc => exact hc
    | finish ha => exact Nat.le_trans (Nat.sub_le _ _) ih

/-- Witness for C9: with 50 queued reads, the state after admitting one read
is reachable and respects the ceiling. -/
theorem limiter_active_le_limit_witness :
    (LimiterState.mk 1 49 0).active ≤ readConcurrencyLimit :=
  limiter_active_le_limit 50 ⟨1, 49, 0⟩
    (LimiterReachable.step LimiterReachable.init
      (LimiterStep.start (limiterInit 50) (by decide) (by decide)))

theorem runSlots_not_mem (f : Nat → α) (sched : List Nat)
    (slots : Nat → Option α) (i : Nat) (h : i ∉ sched) :
    runSlots f sched slots i = slots i := by
  induction sched generalizing slots with
  | nil => rfl
  | cons k rest ih =>
    have hik : i ≠ k := fun e => h (e ▸ List.mem_cons_self k rest)
    have hir : i ∉ rest := fun e => h (List.mem_cons_of_mem _ e)
    simp only [runSlots]
    rw [ih _ hir]
    simp [hik]

theorem runSlots_mem (f : Nat → α) (sched : List Nat)
    (slots : Nat → Option α) (i : Nat) (h : i ∈ sched) :
    runSlots f sched slots i = some (f i) := by
  induction sched generalizing slots with
  | nil => cases h
  | cons k rest ih =>
    by_cases hir : i ∈ rest
    · simp only [runSlots]
      exact ih _ hir
    · have hik : i = k := by
        rcases List.mem_cons.mp h with h' | h'
        · exact h'
        · exact absurd h' hir
      subst hik
      simp only [runSlots]
      rw [runSlots_not_mem _ _ _ _ hir]
      simp

/-- C8: the materialization result is deterministic over an unchanged
filesystem: for any two complete read-completion schedules, every slot of the
result is the same record (same path, content and flags), determined solely
by the filesystem state and the retained entry. -/
theorem materializeScheduled_deterministic (fs : FSModel)
    (valid : List GlobEntry) (s1 s2 : List Nat)
    (h1 : ∀ j, j < valid.length → j ∈ s1)
    (h2 : ∀ j, j < valid.length → j ∈ s2)
    (j : Nat) (hj : j < valid.length) :
    materializeScheduled fs valid s1 j = materializeScheduled fs valid s2 j ∧
    materializeScheduled fs valid s1 j =
      some (serializeEntry fs (valid.getD j default)) := by
  have e1 := runSlots_mem (fun i => serializeEntry fs (valid.getD i default))
    s1 (fun _ => none) j (h1 j hj)
  have e2 := runSlots_mem (fun i => serializeEntry fs (valid.getD i default))
    s2 (fun _ => none) j (h2 j hj)
  exact ⟨by simp only [materializeScheduled]; rw [e1, e2],
    by simp only [materializeScheduled]; rw [e1]⟩

/-- Witness for C8: on the concrete tree, running the two retained entries in
either completion order fills slot 0 identically. -/
theorem materializeScheduled_deterministic_witness :
    materializeScheduled fsTree [entryFile, entryBroken] [1, 0] 0 =
      materializeScheduled fsTree [entryFile, entryBroken] [0, 1] 0 :=
  (materializeScheduled_deterministic fsTree [entryFile, entryBroken]
    [1, 0] [0, 1] (by decide) (by decide) 0 (by decide)).1

/-- C2: on a tree offering a regular file, a directory, a dangling symlink
(stat of its target fails with `ENOENT`) and a symlink to an existing
target, serialization returns exactly the regular file (with its content
bytes) and the dangling symlink (flagged `symlink`, with the raw link-target
bytes), excluding the directory and the live symlink. -/
theorem serializeDirectoryContents_tree_filter
    (fs : FSModel) (fp dp sp tp : String) (mf md ms mt : Option Nat)
    (fAbs sAbs tAbs : String) (fileBytes linkBytes : List Nat)
    (hrf : fs.resolve fp = some fAbs) (hread : fs.readFile fAbs = .ok fileBytes)
    (hrs : fs.resolve sp = some sAbs) (hstat : fs.stat sAbs = .err true "ENOENT")
    (hlink : fs.readlink sAbs = .ok linkBytes)
    (hrt : fs.resolve tp = some tAbs) (hstatT : fs.stat tAbs = .ok) :
    serializeDirectoryContents fs
        [⟨fp, ⟨false, false⟩, mf⟩, ⟨dp, ⟨true, false⟩, md⟩,
         ⟨sp, ⟨false, true⟩, ms⟩, ⟨tp, ⟨false, true⟩, mt⟩] =
      .ok [⟨fp, fileBytes, isExecutable mf, false⟩,
           ⟨sp, linkBytes, isExecutable ms, true⟩] := by
  simp [serializeDirectoryContents, asyncFilter, exceptMapList, keepEntry,
    serializeEntry, applyFilterFlags, hrf, hread, hrs, hstat, hlink, hrt,
    hstatT]

/-- Witness for C2: the concrete tree serializes to exactly its regular file
and its dangling symlink. -/
theorem serializeDirectoryContents_tree_filter_witness :
    serializeDirectoryContents fsTree [entryFile, entryDir, entryBroken, entryLive] =
      .ok [⟨"a.txt", [104, 105], isExecutable (some 0o644), false⟩,
           ⟨"broken", [103], isExecutable (some 0o777), true⟩] :=
  serializeDirectoryContents_tree_filter fsTree "a.txt" "dir" "broken" "live"
    (some 0o644) (some 0o755) (some 0o777) (some 0o777)
    "/root/a.txt" "/root/broken" "/root/live" [104, 105] [103]
    rfl rfl rfl rfl rfl rfl rfl

/-! ## Path-safety lemmas -/

theorem exceptMapList_ok_forall {α β ε : Type} {f : α → Except ε β} :
    ∀ {l : List α} {bs : List β}, exceptMapList f l = .ok bs →
      ∀ a ∈ l, ∃ b, f a = .ok b ∧ b ∈ bs := by
  intro l
  induction l with
  | nil => intro bs _ a ha; cases ha
  | cons x xs ih =>
    intro bs h a ha
    simp only [exceptMapList] at h
    cases hfx : f x with
    | error e => simp [hfx] at h
    | ok b =>
      simp only [hfx] at h
      cases hrest : exceptMapList f xs with
      | error e => simp [hrest] at h
      | ok bs' =>
        simp only [hrest] at h
        cases h
        rcases List.mem_cons.mp ha with rfl | ha'
        · exact ⟨b, hfx, List.mem_cons_self _ _⟩
        · obtain ⟨b', hb', hmem⟩ := ih hrest a ha'
          exact ⟨b', hb', List.mem_cons_of_mem _ hmem⟩

theorem exceptMapList_ok_mem_rev {α β ε : Type} {f : α → Except ε β} :
    ∀ {l : List α} {bs : List β}, exceptMapList f l = .ok bs →
      ∀ b ∈ bs, ∃ a ∈ l, f a = .ok b := by
  intro l
  induction l with
  | nil =>
    intro bs h b hb
    simp only [exceptMapList] at h
    cases h
    cases hb
  | cons x xs ih =>
    intro bs h b hb
    simp only [exceptMapList] at h
    cases hfx : f x with
    | error e => simp [hfx] at h
    | ok b0 =>
      simp only [hfx] at h
      cases hrest : exceptMapList f xs with
      | error e => simp [hrest] at h
      | ok bs' =>
        simp only [hrest] at h
        cases h
        rcases List.mem_cons.mp hb with rfl | hb'
        · exact ⟨x, List.mem_cons_self _ _, hfx⟩
        · obtain ⟨a, ha, hfa⟩ := ih hrest b hb'
          exact ⟨a, List.mem_cons_of_mem _ ha, hfa⟩

theorem exceptMapList_error_of_mem {α β ε : Type} {f : α → Except ε β}
    {x : α} {c : ε} :
    ∀ {l : List α}, x ∈ l → f x = .error c →
      (∀ a ∈ l, a = x ∨ (f a).isOk = true) → exceptMapList f l = .error c := by
  intro l
  induction l with
  | nil => intro hx; cases hx
  | cons y ys ih =>
    intro hx hfx hall
    simp only [exceptMapList]
    rcases hall y (List.mem_cons_self y ys) with rfl | hok
    · simp [hfx]
    · cases hfy : f y with
      | error e => simp [hfy, Except.isOk, Except.toBool] at hok
      | ok b =>
        have hxys : x ∈ ys := by
          rcases List.mem_cons.mp hx with rfl | h'
          · rw [hfx] at hfy; cases hfy
          · exact h'
        have := ih hxys hfx fun a ha => hall a (List.mem_cons_of_mem _ ha)
        simp [hfy, this]

theorem exceptMapList_ok_of_forall {α β ε : Type} {f : α → Except ε β} :
    ∀ {l : List α}, (∀ a ∈ l, (f a).isOk = true) →
      ∃ bs, exceptMapList f l = .ok bs := by
  intro l
  induction l with
  | nil => exact fun _ => ⟨[], rfl⟩
  | cons x xs ih =>
    intro h
    have hx := h x (List.mem_cons_self x xs)
    cases hfx : f x with
    | error e => rw [hfx] at hx; cases hx
    | ok b =>
      obtain ⟨bs, hbs⟩ := ih fun a ha => h a (List.mem_cons_of_mem _ ha)
      exact ⟨b :: bs, by simp [exceptMapList, hfx, hbs]⟩

theorem applyFilterFlags_subset {α : Type} {a : α} :
    ∀ {l : List α} {flags : List Bool},
      a ∈ applyFilterFlags l flags → a ∈ l := by
  intro l
  induction l with
  | nil =>
    intro flags h
    cases flags <;> simp [applyFilterFlags] at h
  | cons x xs ih =>
    intro flags h
    cases flags with
    | nil => simp [applyFilterFlags] at h
    | cons b bs =>
      simp only [applyFilterFlags] at h
      cases b with
      | false =>
        simp only [Bool.false_eq_true, if_false] at h
        exact List.mem_cons_of_mem _ (ih h)
      | true =>
        simp only [if_true] at h
        rcases List.mem_cons.mp h with rfl | h'
        · exact List.mem_cons_self _ _
        · exact List.mem_cons_of_mem _ (ih h')

theorem mem_applyFilterFlags {α ε : Type} {f : α → Except ε Bool} {a : α} :
    ∀ {l : List α} {flags : List Bool}, exceptMapList f l = .ok flags →
      a ∈ l → f a = .ok true → a ∈ applyFilterFlags l flags := by
  intro l
  induction l with
  | nil => intro flags _ ha; cases ha
  | cons x xs ih =>
    intro flags h ha hfa
    simp only [exceptMapList] at h
    cases hfx : f x with
    | error e => simp [hfx] at h
    | ok b =>
      simp only [hfx] at h
      cases hrest : exceptMapList f xs with
      | error e => simp [hrest] at h
      | ok bs' =>
        simp only [hrest] at h
        cases h
        rcases List.mem_cons.mp ha with rfl | ha'
        · rw [hfa] at hfx
          cases hfx
          simp [applyFilterFlags]
        · have hmem := ih hrest ha' hfa
          simp only [applyFilterFlags]
          cases b with
          | false => simpa using hmem
          | true => simp only [if_true]; exact List.mem_cons_of_mem _ hmem

theorem keep_of_mem_applyFilterFlags {α ε : Type} {f : α → Except ε Bool}
    {a : α} :
    ∀ {l : List α} {flags : List Bool}, exceptMapList f l = .ok flags →
      a ∈ applyFilterFlags l flags → f a = .ok true := by
  intro l
  induction l with
  | nil =>
    intro flags _ ha
    cases flags <;> simp [applyFilterFlags] at ha
  | cons x xs ih =>
    intro flags h ha
    simp only [exceptMapList] at h
    cases hfx : f x with
    | error e => simp [hfx] at h
    | ok b =>
      simp only [hfx] at h
      cases hrest : exceptMapList f xs with
      | error e => simp [hrest] at h
      | ok bs' =>
        simp only [hrest] at h
        cases h
        simp only [applyFilterFlags] at ha
        cases b with
        | false =>
          simp only [Bool.false_eq_true, if_false] at ha
          exact ih hrest ha
        | true =>
          simp only [if_true] at ha
          rcases List.mem_cons.mp ha with rfl | ha'
          · exact hfx
          · exact ih hrest ha'

theorem serializeEntry_ok_path {fs : FSModel} {e : GlobEntry}
    {r : SerializedFile} (h : serializeEntry fs e = .ok r) :
    r.path = e.path ∧ (fs.resolve e.path).isSome = true := by
  simp only [serializeEntry] at h
  cases hres : fs.resolve e.path with
  | none => simp [hres] at h
  | some abs =>
    simp only [hres] at h
    cases hread :
        (if e.dirent.isSymbolicLink then fs.readlink abs
         else fs.readFile abs) with
    | error err => simp [hread] at h
    | ok content =>
      simp only [hread] at h
      cases h
      exact ⟨rfl, by simp [hres]⟩

/-- C5: (i) on success, every returned `SerializedFile.path` passed safe
resolution within the source root, hence — by the contract of the safe-path
primitive, given as `hcontract` — lies within the root; (ii) if any
non-directory entry's path resolution fails, the whole operation aborts with
an error and no partial result, and when that entry is the only failing one
the surfaced error is precisely the path-safety error. -/
theorem serializeDirectoryContents_path_safety (fs : FSModel)
    (entries : List GlobEntry) (withinRoot : String → Prop)
    (hcontract : ∀ p, (fs.resolve p).isSome = true → withinRoot p) :
    (∀ out, serializeDirectoryContents fs entries = .ok out →
      ∀ r ∈ out, withinRoot r.path) ∧
    (∀ e ∈ entries, e.dirent.isDirectory = false → fs.resolve e.path = none →
      (∃ err, serializeDirectoryContents fs entries = .error err) ∧
      ((∀ e' ∈ entries, e' ≠ e → (keepEntry fs e').isOk = true ∧
          (keepEntry fs e' = .ok true → (serializeEntry fs e').isOk = true)) →
        serializeDirectoryContents fs entries = .error .pathSafety)) := by
  constructor
  · intro out hok r hr
    simp only [serializeDirectoryContents] at hok
    cases hfil : asyncFilter (keepEntry fs) entries with
    | error err => simp [hfil] at hok
    | ok valid =>
      simp only [hfil] at hok
      obtain ⟨a, _, hfa⟩ := exceptMapList_ok_mem_rev hok r hr
      obtain ⟨hpath, hres⟩ := serializeEntry_ok_path hfa
      exact hpath ▸ hcontract _ hres
  · intro e he hdir hres
    constructor
    · cases hser : serializeDirectoryContents fs entries with
      | error err => exact ⟨err, rfl⟩
      | ok out =>
        exfalso
        simp only [serializeDirectoryContents] at hser
        cases hfil : asyncFilter (keepEntry fs) entries with
        | error err => simp [hfil] at hser
        | ok valid =>
          simp only [hfil] at hser
          simp only [asyncFilter] at hfil
          cases hflags : exceptMapList (keepEntry fs) entries with
          | error err => simp [hflags] at hfil
          | ok flags =>
            simp only [hflags] at hfil
            cases hfil
            by_cases hsym : e.dirent.isSymbolicLink = true
            · have hk : keepEntry fs e = .error .pathSafety := by
                simp [keepEntry, hdir, hsym, hres]
              obtain ⟨b, hb, _⟩ := exceptMapList_ok_forall hflags e he
              rw [hk] at hb
              cases hb
            · have hk : keepEntry fs e = .ok true := by
                simp [keepEntry, hdir, hsym]
              have hmem := mem_applyFilterFlags hflags he hk
              obtain ⟨rr, hrr, _⟩ := exceptMapList_ok_forall hser e hmem
              have hke : serializeEntry fs e = .error .pathSafety := by
                simp [serializeEntry, hres]
              rw [hke] at hrr
              cases hrr
    · intro hnice
      simp only [serializeDirectoryContents, asyncFilter]
      by_cases hsym : e.dirent.isSymbolicLink = true
      · have hk : keepEntry fs e = .error .pathSafety := by
          simp [keepEntry, hdir, hsym, hres]
        have hall : ∀ a ∈ entries, a = e ∨ (keepEntry fs a).isOk = true := by
          intro a ha
          by_cases hae : a = e
          · exact Or.inl hae
          · exact Or.inr (hnice a ha hae).1
        have herr := exceptMapList_error_of_mem he hk hall
        simp [herr]
      · have hk : keepEntry fs e = .ok true := by
          simp [keepEntry, hdir, hsym]
        have hallok : ∀ a ∈ entries, (keepEntry fs a).isOk = true := by
          intro a ha
          by_cases hae : a = e
          · subst hae; simp [hk, Except.isOk, Except.toBool]
          · exact (hnice a ha hae).1
        obtain ⟨flags, hflags⟩ := exceptMapList_ok_of_forall hallok
        have hmem := mem_applyFilterFlags hflags he hk
        have hse : serializeEntry fs e = .error .pathSafety := by
          simp [serializeEntry, hres]
        have hallv : ∀ a ∈ applyFilterFlags entries flags,
            a = e ∨ (serializeEntry fs a).isOk = true := by
          intro a ha
          by_cases hae : a = e
          · exact Or.inl hae
          · exact Or.inr ((hnice a (applyFilterFlags_subset ha) hae).2
              (keep_of_mem_applyFilterFlags hflags ha))
        have herr := exceptMapList_error_of_mem hmem hse hallv
        simp [hflags, herr]

/-- Witness for C5: serializing a tree whose only entry fails safe-path
resolution aborts with the path-safety error. -/
theorem serializeDirectoryContents_path_safety_witness :
    serializeDirectoryContents fsEscape [entryEscape] = .error .pathSafety :=
  ((serializeDirectoryContents_path_safety fsEscape [entryEscape]
      (fun _ => True) (fun _ _ => trivial)).2 entryEscape
      (List.mem_singleton.mpr rfl) rfl rfl).2
    (fun _ he' hne => absurd (List.mem_singleton.mp he') hne)

end Scaffolder
